import Mathlib

/-!
Shallow embedding of `src/yo1k/qaws/qaws_app.py`.

The program is a small Flask app.  Its core is `QAWS.request_questions`
(lines 118-138): it reads `questions_num` from the request JSON, asserts it
is a non-negative integer, returns `{}` when it is 0, and otherwise fetches
a batch of questions from a `QuestionService`, inserts them into a Postgres
table with `PgStorageService.insert_uniq_questions`
(`INSERT ... ON CONFLICT (id) DO NOTHING` over `unnest` of the four parallel
arrays, returning the inserted count), and retries the shortfall
(`questions_num - inserted`) up to `retries = 100` times, finally returning
`questions.question[-1]` on success or `abort(500)` on exhaustion.

Modelling choices:
* A fetched JSON item / a stored row is a `Question` record holding the four
  fields the code uses (`id`, `question`, `answer`, `created_at`); the
  timestamp is kept opaque as a `String`.
* The database table is a `Store := List Question` in insertion order; the
  SQL `ON CONFLICT (id) DO NOTHING` over the unnested rows is `insertRows`,
  which walks the rows in order, skips a row whose `id` is already present
  (including rows inserted earlier in the same statement, as Postgres'
  `DO NOTHING` does), and returns the count of newly inserted rows.
* The external question service is an oracle
  `Source := Nat -> Int -> Except Unit (List Question)` mapping the index of
  the fetch call and the requested count to either a batch or a failure
  (`urllib`/JSON exceptions are an `Except.error`).
* The `while retries > 0` loop is the fuel-recursive `request_loop`; a
  `Trace` records the observable effects (final store, number of fetch and
  insert calls, and the batch most recently passed to the insert).
-/

namespace Qaws

/-- One question: a fetched JSON item restricted to the four fields the code
reads, which are also exactly the columns inserted into the table. -/
structure Question where
  id : Int
  question : String
  answer : String
  created_at : String
deriving DecidableEq, Repr

/-- `PreparedQuestions` (lines 17-21): four parallel sequences. -/
structure PreparedQuestions where
  id : List Int
  question : List String
  answer : List String
  created_at : List String
deriving DecidableEq, Repr

/-- The database table `questions`, in insertion order. -/
abbrev Store := List Question

/-- `DefaultQuestionService.__prepare_questions` (lines 66-74): append each
item's four fields, in order, to the four sequences. -/
def prepare_questions : List Question → PreparedQuestions
  | [] => ⟨[], [], [], []⟩
  | q :: rest =>
      let p := prepare_questions rest
      ⟨q.id :: p.id, q.question :: p.question, q.answer :: p.answer,
       q.created_at :: p.created_at⟩

/-- The row set produced by the SQL `unnest` of the four parallel arrays
(lines 94-98); the arrays always have equal length by construction of
`PreparedQuestions`. -/
def rowsOf : List Int → List String → List String → List String → List Question
  | i :: is, q :: qs, a :: as, c :: cs => ⟨i, q, a, c⟩ :: rowsOf is qs as cs
  | _, _, _, _ => []

/-- The `INSERT ... ON CONFLICT (id) DO NOTHING ... RETURNING id` /
`SELECT COUNT(*)` statement (lines 90-102), applied row by row: a row whose
`id` already exists (in the table or among rows inserted earlier in the same
statement) is skipped; otherwise it is appended.  Returns the count of
inserted rows together with the new table. -/
def insertRows : List Question → Store → Nat × Store
  | [], s => (0, s)
  | r :: rs, s =>
      if r.id ∈ s.map Question.id then insertRows rs s
      else
        let res := insertRows rs (s ++ [r])
        (res.1 + 1, res.2)

/-- `PgStorageService.insert_uniq_questions` (lines 86-105). -/
def insert_uniq_questions (s : Store) (q : PreparedQuestions) : Nat × Store :=
  insertRows (rowsOf q.id q.question q.answer q.created_at) s

/-- `fail_uniq_num = questions_num - inserted_questions_num` (line 132). -/
def fail_uniq_num (questions_num : Int) (inserted_questions_num : Nat) : Int :=
  questions_num - inserted_questions_num

/-- The external question service as an oracle: fetch-call index and the
requested count determine the batch, or a fetch failure. -/
abbrev Source := Nat → Int → Except Unit (List Question)

/-- The possible outcomes of `QAWS.request_questions`. -/
inductive ReqOutcome where
  /-- `return {}` (line 123). -/
  | emptyDict
  /-- `return questions.question[-1]` (line 137). -/
  | questionText (text : String)
  /-- `abort(500)` (line 138). -/
  | abort500
  /-- the `assert` on lines 120-121 fails. -/
  | assertionError
  /-- a `get_questions` call raises. -/
  | sourceError
  /-- `questions.question[-1]` on an empty sequence raises `IndexError`. -/
  | indexError
deriving DecidableEq, Repr

/-- Observable effects of a run: the table, how many fetch and insert calls
happened, and the batch most recently passed to the insert. -/
structure Trace where
  store : Store
  fetches : Nat
  inserts : Nat
  lastInserted : Option PreparedQuestions
deriving DecidableEq, Repr

/-- `retries = 100` (line 126). -/
def RETRY_BUDGET : Nat := 100

/-- The `while retries > 0` loop (lines 127-138), with the remaining retry
count as fuel.  Each iteration inserts the current batch, computes the
shortfall, and either returns the last question text (shortfall 0), fetches
a shortfall-sized batch and continues, or propagates a fetch failure. -/
def request_loop (source : Source) :
    PreparedQuestions → Int → Nat → Trace → ReqOutcome × Trace
  | _, _, 0, tr => (.abort500, tr)
  | questions, questions_num, retries + 1, tr =>
      let res := insert_uniq_questions tr.store questions
      let tr' : Trace :=
        { store := res.2, fetches := tr.fetches,
          inserts := tr.inserts + 1, lastInserted := some questions }
      let fail := fail_uniq_num questions_num res.1
      if fail ≠ 0 then
        match source tr.fetches fail with
        | .error _ => (.sourceError, { tr' with fetches := tr.fetches + 1 })
        | .ok b =>
            request_loop source (prepare_questions b) fail retries
              { tr' with fetches := tr.fetches + 1 }
      else
        match questions.question.getLast? with
        | some t => (.questionText t, tr')
        | none => (.indexError, tr')

/-- The request body value found under the key `questions_num`: either an
integer or some other JSON value (including absent / `None`). -/
inductive JsonVal where
  | int (n : Int)
  | nonInt
deriving DecidableEq, Repr

/-- `QAWS.request_questions` (lines 118-138): assert the count is a
non-negative integer, return `{}` for 0, otherwise fetch an initial batch
and run the retry loop. -/
def request_questions (source : Source) (input : JsonVal) (store : Store) :
    ReqOutcome × Trace :=
  let tr0 : Trace := { store := store, fetches := 0, inserts := 0,
                       lastInserted := none }
  match input with
  | .nonInt => (.assertionError, tr0)
  | .int n =>
      if n < 0 then (.assertionError, tr0)
      else if n = 0 then (.emptyDict, tr0)
      else
        match source 0 n with
        | .error _ => (.sourceError, { tr0 with fetches := 1 })
        | .ok b =>
            request_loop source (prepare_questions b) n RETRY_BUDGET
              { tr0 with fetches := 1 }

/-- A source whose batches consist only of identities already present in the
given table. -/
def OnlySeen (source : Source) (s : Store) : Prop :=
  ∀ k m, ∃ b, source k m = Except.ok b ∧ ∀ q ∈ b, q.id ∈ s.map Question.id

/-! ### Concrete example data for witnesses -/

/-- A sample question. -/
def exQ1 : Question := ⟨1, "Q1", "A1", "t1"⟩

/-- A source that always returns the single-question batch `[exQ1]`. -/
def exSource1 : Source := fun _ _ => .ok [exQ1]

/-- A source whose fetches always fail. -/
def exErrSource : Source := fun _ _ => .error ()

/-! ### Properties of normalization -/

theorem prepare_questions_id (qs : List Question) :
    (prepare_questions qs).id = qs.map Question.id := by
  induction qs with
  | nil => rfl
  | cons q rest ih => simp [prepare_questions, ih]

theorem prepare_questions_question (qs : List Question) :
    (prepare_questions qs).question = qs.map Question.question := by
  induction qs with
  | nil => rfl
  | cons q rest ih => simp [prepare_questions, ih]

theorem prepare_questions_answer (qs : List Question) :
    (prepare_questions qs).answer = qs.map Question.answer := by
  induction qs with
  | nil => rfl
  | cons q rest ih => simp [prepare_questions, ih]

theorem prepare_questions_created_at (qs : List Question) :
    (prepare_questions qs).created_at = qs.map Question.created_at := by
  induction qs with
  | nil => rfl
  | cons q rest ih => simp [prepare_questions, ih]

/-- Unnesting the four parallel arrays produced from a batch recovers the
batch: normalization loses nothing and the store sees the original rows. -/
theorem rowsOf_prepare (qs : List Question) :
    rowsOf (prepare_questions qs).id (prepare_questions qs).question
      (prepare_questions qs).answer (prepare_questions qs).created_at = qs := by
  induction qs with
  | nil => rfl
  | cons q rest ih => simp [prepare_questions, rowsOf, ih]

/-! ### Properties of the insert statement -/

/-- The insert only appends: the new table is the old one followed by rows
whose identities were not present before. -/
theorem insertRows_append (rs : List Question) :
    ∀ s : Store, ∃ nw,
      (insertRows rs s).2 = s ++ nw ∧
      nw.length = (insertRows rs s).1 ∧
      ∀ r ∈ nw, r.id ∉ s.map Question.id := by
  induction rs with
  | nil =>
      intro s
      exact ⟨[], by simp [insertRows], by simp [insertRows], by simp⟩
  | cons r rs ih =>
      intro s
      by_cases h : r.id ∈ s.map Question.id
      · obtain ⟨nw, h1, h2, h3⟩ := ih s
        exact ⟨nw, by simp [insertRows, h, h1], by simp [insertRows, h, h2], h3⟩
      · obtain ⟨nw, h1, h2, h3⟩ := ih (s ++ [r])
        refine ⟨r :: nw, ?_, ?_, ?_⟩
        · simp only [insertRows, if_neg h]
          rw [h1]
          simp
        · simp only [insertRows, if_neg h, List.length_cons]
          omega
        · intro r' hr'
          rcases List.mem_cons.mp hr' with hrr | hr'
          · exact hrr ▸ h
          · have := h3 r' hr'
            simp only [List.map_append, List.mem_append] at this
            intro hmem
            exact this (Or.inl hmem)

/-- The count returned by the insert is the table growth. -/
theorem insertRows_length (rs : List Question) (s : Store) :
    (insertRows rs s).2.length = s.length + (insertRows rs s).1 := by
  obtain ⟨nw, h1, h2, _⟩ := insertRows_append rs s
  rw [h1, List.length_append, h2]

/-- The uniqueness constraint is preserved: if the table has no duplicate
identities before the insert, it has none after. -/
theorem insertRows_nodup (rs : List Question) :
    ∀ s : Store, (s.map Question.id).Nodup →
      ((insertRows rs s).2.map Question.id).Nodup := by
  induction rs with
  | nil => intro s h; simpa [insertRows] using h
  | cons r rs ih =>
      intro s h
      by_cases hm : r.id ∈ s.map Question.id
      · simpa [insertRows, hm] using ih s h
      · have hnd : ((s ++ [r]).map Question.id).Nodup := by
          rw [List.map_append, List.nodup_append]
          refine ⟨h, by simp, ?_⟩
          intro x hx
          simp only [List.map_cons, List.map_nil, List.mem_singleton]
          intro hxr
          exact hm (hxr ▸ hx)
        simpa [insertRows, hm] using ih (s ++ [r]) hnd

/-- A batch all of whose identities are already present inserts nothing and
leaves the table unchanged. -/
theorem insertRows_all_dup (rs : List Question) :
    ∀ s : Store, (∀ r ∈ rs, r.id ∈ s.map Question.id) →
      insertRows rs s = (0, s) := by
  induction rs with
  | nil => intro s _; rfl
  | cons r rs ih =>
      intro s h
      have hr : r.id ∈ s.map Question.id := h r (by simp)
      rw [insertRows, if_pos hr]
      exact ih s fun r' hr' => h r' (by simp [hr'])

/-- A batch of pairwise-distinct identities, none already present, is
inserted in full, in order. -/
theorem insertRows_all_fresh (rs : List Question) :
    ∀ s : Store, (rs.map Question.id).Nodup →
      (∀ r ∈ rs, r.id ∉ s.map Question.id) →
      insertRows rs s = (rs.length, s ++ rs) := by
  induction rs with
  | nil => intro s _ _; simp [insertRows]
  | cons r rs ih =>
      intro s hnd hfresh
      have hr : r.id ∉ s.map Question.id := hfresh r (by simp)
      have hnd' : (rs.map Question.id).Nodup := by
        simpa using hnd.of_cons
      have hfresh' : ∀ r' ∈ rs, r'.id ∉ (s ++ [r]).map Question.id := by
        intro r' hr'
        simp only [List.map_append, List.mem_append, List.map_cons,
          List.map_nil, List.mem_singleton]
        rintro (hmem | hid)
        · exact hfresh r' (by simp [hr']) hmem
        · have : r.id ∈ rs.map Question.id := by
            rw [← hid]
            exact List.mem_map_of_mem Question.id hr'
          simp only [List.map_cons, List.nodup_cons] at hnd
          exact hnd.1 this
      rw [insertRows, if_neg hr, ih (s ++ [r]) hnd' hfresh']
      simp

/-- The returned count is the number of distinct batch identities that were
not already in the table: each within-batch duplicate is counted once. -/
theorem insertRows_fst (rs : List Question) :
    ∀ s : Store,
      (insertRows rs s).1 =
        ((rs.map Question.id).toFinset \ (s.map Question.id).toFinset).card := by
  induction rs with
  | nil => intro s; simp [insertRows]
  | cons r rs ih =>
      intro s
      by_cases h : r.id ∈ s.map Question.id
      · rw [insertRows, if_pos h, ih s]
        congr 1
        ext x
        simp only [List.map_cons, List.toFinset_cons, Finset.mem_sdiff,
          Finset.mem_insert, List.mem_toFinset]
        constructor
        · rintro ⟨hx, hxs⟩
          exact ⟨Or.inr hx, hxs⟩
        · rintro ⟨hx | hx, hxs⟩
          · exact absurd (hx ▸ h) hxs
          · exact ⟨hx, hxs⟩
      · rw [insertRows, if_neg h]
        have hsr : ((s ++ [r]).map Question.id).toFinset =
            insert r.id (s.map Question.id).toFinset := by
          ext x
          simp only [List.map_append, List.toFinset_append, List.map_cons,
            List.map_nil, Finset.mem_union, List.mem_toFinset,
            List.toFinset_cons, List.toFinset_nil, Finset.mem_insert,
            Finset.not_mem_empty, or_false, List.mem_singleton,
            Finset.mem_insert]
          tauto
        show (insertRows rs (s ++ [r])).1 + 1 = _
        rw [ih (s ++ [r]), hsr]
        have herase :
            (rs.map Question.id).toFinset \
                insert r.id (s.map Question.id).toFinset =
              ((rs.map Question.id).toFinset \
                (s.map Question.id).toFinset).erase r.id := by
          ext x
          simp only [Finset.mem_sdiff, Finset.mem_insert, Finset.mem_erase]
          tauto
        have hins :
            ((r.id :: rs.map Question.id).toFinset \
                (s.map Question.id).toFinset) =
              insert r.id
                ((rs.map Question.id).toFinset \
                  (s.map Question.id).toFinset) := by
          ext x
          simp only [List.toFinset_cons, Finset.mem_sdiff, Finset.mem_insert,
            List.mem_toFinset]
          constructor
          · rintro ⟨hx | hx, hxs⟩
            · exact Or.inl hx
            · exact Or.inr ⟨hx, hxs⟩
          · rintro (hx | ⟨hx, hxs⟩)
            · exact ⟨Or.inl hx, hx ▸ h⟩
            · exact ⟨Or.inr hx, hxs⟩
        rw [herase]
        simp only [List.map_cons]
        rw [hins]
        set X := (rs.map Question.id).toFinset \ (s.map Question.id).toFinset
          with hX
        by_cases hrX : r.id ∈ X
        · rw [Finset.insert_eq_self.mpr hrX, Finset.card_erase_of_mem hrX]
          have : 0 < X.card := Finset.card_pos.mpr ⟨r.id, hrX⟩
          omega
        · rw [Finset.card_insert_of_not_mem hrX,
            Finset.erase_eq_of_not_mem hrX]

/-! ### Properties of the retry loop -/

/-- One unfolding step of the loop when at least one retry remains. -/
theorem request_loop_succ (source : Source) (q : PreparedQuestions) (n : Int)
    (r : Nat) (tr : Trace) :
    request_loop source q n (r + 1) tr =
      (if fail_uniq_num n (insert_uniq_questions tr.store q).1 ≠ 0 then
        match source tr.fetches
            (fail_uniq_num n (insert_uniq_questions tr.store q).1) with
        | .error _ =>
            (.sourceError,
              { store := (insert_uniq_questions tr.store q).2,
                fetches := tr.fetches + 1, inserts := tr.inserts + 1,
                lastInserted := some q })
        | .ok b =>
            request_loop source (prepare_questions b)
              (fail_uniq_num n (insert_uniq_questions tr.store q).1) r
              { store := (insert_uniq_questions tr.store q).2,
                fetches := tr.fetches + 1, inserts := tr.inserts + 1,
                lastInserted := some q }
      else
        match q.question.getLast? with
        | some t =>
            (.questionText t,
              { store := (insert_uniq_questions tr.store q).2,
                fetches := tr.fetches, inserts := tr.inserts + 1,
                lastInserted := some q })
        | none =>
            (.indexError,
              { store := (insert_uniq_questions tr.store q).2,
                fetches := tr.fetches, inserts := tr.inserts + 1,
                lastInserted := some q })) := rfl

/-- Whenever the loop returns a question text, the table has grown by
exactly `questions_num` rows appended at the end, the no-duplicate-identity
invariant is preserved, and the text is the last question of the batch most
recently passed to the insert. -/
theorem request_loop_success (source : Source) (r : Nat) :
    ∀ (q : PreparedQuestions) (n : Int) (tr tr' : Trace) (t : String),
      request_loop source q n r tr = (.questionText t, tr') →
      ∃ nw,
        tr'.store = tr.store ++ nw ∧
        (nw.length : Int) = n ∧
        ((tr.store.map Question.id).Nodup →
          (tr'.store.map Question.id).Nodup) ∧
        ∃ pq, tr'.lastInserted = some pq ∧ pq.question.getLast? = some t := by
  induction r with
  | zero =>
      intro q n tr tr' t h
      simp [request_loop] at h
  | succ r ih =>
      intro q n tr tr' t h
      rw [request_loop] at h
      simp only [insert_uniq_questions] at h
      set rows := rowsOf q.id q.question q.answer q.created_at with hrows
      obtain ⟨nw0, hins, hlen0, _⟩ := insertRows_append rows tr.store
      by_cases hf : fail_uniq_num n (insertRows rows tr.store).1 ≠ 0
      · rw [if_pos hf] at h
        cases hok : source tr.fetches
            (fail_uniq_num n (insertRows rows tr.store).1) with
        | error e =>
            rw [hok] at h
            simp at h
        | ok b =>
            rw [hok] at h
            obtain ⟨nw1, h1, h2, h3, h4⟩ := ih (prepare_questions b)
              (fail_uniq_num n (insertRows rows tr.store).1) _ tr' t h
            refine ⟨nw0 ++ nw1, ?_, ?_, ?_, h4⟩
            · simp only at h1
              rw [h1, hins, List.append_assoc]
            · rw [List.length_append]
              push_cast
              rw [hlen0]
              unfold fail_uniq_num at h2
              omega
            · intro hnd
              apply h3
              exact insertRows_nodup rows tr.store hnd
      · rw [if_neg hf] at h
        push_neg at hf
        cases hl : q.question.getLast? with
        | none => rw [hl] at h; simp at h
        | some t0 =>
            rw [hl] at h
            simp only [Prod.mk.injEq, ReqOutcome.questionText.injEq] at h
            obtain ⟨rfl, rfl⟩ := h
            refine ⟨nw0, hins, ?_, ?_, ⟨q, rfl, hl⟩⟩
            · unfold fail_uniq_num at hf
              omega
            · intro hnd
              exact insertRows_nodup rows tr.store hnd

/-- Against a source that only yields already-seen identities, the loop runs
through its whole fuel, performs one insert and one fetch per iteration,
never changes the table, and ends in `abort(500)`. -/
theorem request_loop_exhaust (source : Source) (r : Nat) :
    ∀ (q : PreparedQuestions) (n : Int) (tr : Trace),
      OnlySeen source tr.store →
      (∀ row ∈ rowsOf q.id q.question q.answer q.created_at,
        row.id ∈ tr.store.map Question.id) →
      n ≠ 0 →
      (request_loop source q n r tr).1 = .abort500 ∧
      (request_loop source q n r tr).2.store = tr.store ∧
      (request_loop source q n r tr).2.inserts = tr.inserts + r ∧
      (request_loop source q n r tr).2.fetches = tr.fetches + r := by
  induction r with
  | zero =>
      intro q n tr _ _ _
      simp [request_loop]
  | succ r ih =>
      intro q n tr hseen hdup hn
      have hins : insertRows (rowsOf q.id q.question q.answer q.created_at)
          tr.store = (0, tr.store) :=
        insertRows_all_dup _ tr.store hdup
      have hfail : fail_uniq_num n 0 = n := by
        unfold fail_uniq_num
        simp
      obtain ⟨b, hok, hb⟩ := hseen tr.fetches n
      rw [request_loop]
      simp only [insert_uniq_questions, hins, hfail, if_pos hn, hok]
      set tr'' : Trace :=
        { store := tr.store, fetches := tr.fetches + 1,
          inserts := tr.inserts + 1, lastInserted := some q } with htr''
      have hdup' : ∀ row ∈ rowsOf (prepare_questions b).id
          (prepare_questions b).question (prepare_questions b).answer
          (prepare_questions b).created_at,
          row.id ∈ tr''.store.map Question.id := by
        rw [rowsOf_prepare]
        exact hb
      have := ih (prepare_questions b) n tr'' hseen hdup' hn
      refine ⟨this.1, this.2.1, ?_, ?_⟩
      · rw [this.2.2.1]
        show tr.inserts + 1 + r = tr.inserts + (r + 1)
        omega
      · rw [this.2.2.2]
        show tr.fetches + 1 + r = tr.fetches + (r + 1)
        omega

/-! ### Claims -/

/-- C4: for `questions_num == 0` the request returns the empty dict and
performs no fetch and no insert, leaving the store untouched. -/
theorem C4_zero_count_returns_empty (source : Source) (store : Store) :
    request_questions source (.int 0) store =
      (.emptyDict,
        { store := store, fetches := 0, inserts := 0, lastInserted := none }) :=
  rfl

/-- C9: normalization is a pure, order-preserving transform producing four
parallel sequences of the input batch's length, whose `i`-th entries are the
four fields of the `i`-th input item. -/
theorem C9_normalization_parallel (qs : List Question) :
    (prepare_questions qs).id.length = qs.length ∧
    (prepare_questions qs).question.length = qs.length ∧
    (prepare_questions qs).answer.length = qs.length ∧
    (prepare_questions qs).created_at.length = qs.length ∧
    ∀ i : Nat,
      (prepare_questions qs).id[i]? = (qs[i]?).map Question.id ∧
      (prepare_questions qs).question[i]? = (qs[i]?).map Question.question ∧
      (prepare_questions qs).answer[i]? = (qs[i]?).map Question.answer ∧
      (prepare_questions qs).created_at[i]? =
        (qs[i]?).map Question.created_at := by
  refine ⟨?_, ?_, ?_, ?_, ?_⟩ <;>
    simp [prepare_questions_id, prepare_questions_question,
      prepare_questions_answer, prepare_questions_created_at]

/-- C10: an insert only ever appends rows whose identity was absent; every
row present before the call is still present, unmodified and in place, so
re-sending an already-present identity changes nothing for it. -/
theorem C10_insert_preserves_existing_rows (s : Store) (q : PreparedQuestions) :
    ∃ nw, (insert_uniq_questions s q).2 = s ++ nw ∧
      ∀ r ∈ nw, r.id ∉ s.map Question.id := by
  obtain ⟨nw, h1, _, h3⟩ :=
    insertRows_append (rowsOf q.id q.question q.answer q.created_at) s
  exact ⟨nw, h1, h3⟩

/-- C6: the insert returns exactly the number of distinct batch identities
not already present (within-batch duplicates counted once), commits exactly
that many rows, and skips already-present identities without error. -/
theorem C6_insert_counts_new_identities (s : Store) (q : PreparedQuestions) :
    (insert_uniq_questions s q).1 =
      (((rowsOf q.id q.question q.answer q.created_at).map
          Question.id).toFinset \ (s.map Question.id).toFinset).card ∧
    (insert_uniq_questions s q).2.length =
      s.length + (insert_uniq_questions s q).1 :=
  ⟨insertRows_fst _ s, insertRows_length _ s⟩

/-- C3 counterexample: the store may return an inserted count of 0 (here it
does, on a batch whose only identity is already present), and then the
remaining count neither strictly decreases nor reaches 0 — it stays put. -/
theorem C3_counterexample :
    (insert_uniq_questions [exQ1] (prepare_questions [exQ1])).1 = 0 ∧
    ¬ (fail_uniq_num 1 (insert_uniq_questions [exQ1]
          (prepare_questions [exQ1])).1 < 1 ∨
       fail_uniq_num 1 (insert_uniq_questions [exQ1]
          (prepare_questions [exQ1])).1 = 0) := by
  decide

/-- C3 (amended): for every inserted count the store may return, the
remaining count never increases; it strictly decreases whenever at least one
row was inserted, and stays exactly unchanged when the count is 0. -/
theorem C3_remaining_never_increases (n : Int) (s : Store)
    (q : PreparedQuestions) (h : 0 < n) :
    fail_uniq_num n (insert_uniq_questions s q).1 ≤ n ∧
    (0 < (insert_uniq_questions s q).1 →
      fail_uniq_num n (insert_uniq_questions s q).1 < n) ∧
    ((insert_uniq_questions s q).1 = 0 →
      fail_uniq_num n (insert_uniq_questions s q).1 = n) := by
  unfold fail_uniq_num
  omega

/-- Witness for C3 (amended) at `n = 1` with an empty store. -/
theorem C3_remaining_never_increases_witness :
    (0 : Int) < 1 ∧
    (fail_uniq_num 1 (insert_uniq_questions [] (prepare_questions [exQ1])).1
        ≤ 1 ∧
     (0 < (insert_uniq_questions [] (prepare_questions [exQ1])).1 →
       fail_uniq_num 1
         (insert_uniq_questions [] (prepare_questions [exQ1])).1 < 1) ∧
     ((insert_uniq_questions [] (prepare_questions [exQ1])).1 = 0 →
       fail_uniq_num 1
         (insert_uniq_questions [] (prepare_questions [exQ1])).1 = 1)) :=
  ⟨by decide,
    C3_remaining_never_increases 1 [] (prepare_questions [exQ1]) (by decide)⟩

/-- C7: a request whose count is negative or not an integer fails the
assertion before the loop: no fetch, no insert, store unchanged. -/
theorem C7_invalid_request_rejected (source : Source) (store : Store)
    (input : JsonVal)
    (h : input = .nonInt ∨ ∃ n : Int, input = .int n ∧ n < 0) :
    request_questions source input store =
      (.assertionError,
        { store := store, fetches := 0, inserts := 0, lastInserted := none }) := by
  rcases h with rfl | ⟨n, rfl, hn⟩
  · rfl
  · simp only [request_questions, if_pos hn]

/-- Witness for C7 at count `-1`. -/
theorem C7_invalid_request_rejected_witness :
    (JsonVal.int (-1) = .nonInt ∨
      ∃ n : Int, JsonVal.int (-1) = .int n ∧ n < 0) ∧
    request_questions exSource1 (.int (-1)) [] =
      (.assertionError,
        { store := [], fetches := 0, inserts := 0, lastInserted := none }) :=
  ⟨Or.inr ⟨-1, rfl, by decide⟩,
    C7_invalid_request_rejected exSource1 [] (.int (-1))
      (Or.inr ⟨-1, rfl, by decide⟩)⟩

/-- C1: whenever a positive request succeeds, exactly `n` previously absent
rows have been appended to the store over all iterations combined, the
no-duplicate-identity invariant still holds, and the returned text is the
last question of the batch most recently passed to the insert. -/
theorem C1_success_inserts_exactly_requested (source : Source) (store : Store)
    (n : Int) (t : String) (tr : Trace) (h0 : 0 < n)
    (hnd : (store.map Question.id).Nodup)
    (hrun : request_questions source (.int n) store = (.questionText t, tr)) :
    ∃ nw, tr.store = store ++ nw ∧ (nw.length : Int) = n ∧
      (∀ r ∈ nw, r.id ∉ store.map Question.id) ∧
      (tr.store.map Question.id).Nodup ∧
      ∃ pq, tr.lastInserted = some pq ∧ pq.question.getLast? = some t := by
  simp only [request_questions] at hrun
  rw [if_neg (by omega), if_neg (by omega)] at hrun
  cases hok : source 0 n with
  | error e =>
      rw [hok] at hrun
      simp at hrun
  | ok b =>
      rw [hok] at hrun
      obtain ⟨nw, h1, h2, h3, h4⟩ := request_loop_success source RETRY_BUDGET
        (prepare_questions b) n _ tr t hrun
      have hnd' : (tr.store.map Question.id).Nodup := h3 hnd
      refine ⟨nw, h1, h2, ?_, hnd', h4⟩
      intro r hr hmem
      rw [h1, List.map_append, List.nodup_append] at hnd'
      exact hnd'.2.2 hmem (List.mem_map_of_mem Question.id hr)

/-- Witness for C1: empty store, request 1, a source returning `[exQ1]`. -/
theorem C1_success_inserts_exactly_requested_witness :
    (0 : Int) < 1 ∧
    (([] : Store).map Question.id).Nodup ∧
    request_questions exSource1 (.int 1) [] =
      (.questionText "Q1",
        { store := [exQ1], fetches := 1, inserts := 1,
          lastInserted := some (prepare_questions [exQ1]) }) ∧
    (∃ nw,
      (Trace.mk [exQ1] 1 1 (some (prepare_questions [exQ1]))).store =
        [] ++ nw ∧
      (nw.length : Int) = 1 ∧
      (∀ r ∈ nw, r.id ∉ ([] : Store).map Question.id) ∧
      ((Trace.mk [exQ1] 1 1
          (some (prepare_questions [exQ1]))).store.map Question.id).Nodup ∧
      ∃ pq,
        (Trace.mk [exQ1] 1 1
          (some (prepare_questions [exQ1]))).lastInserted = some pq ∧
        pq.question.getLast? = some "Q1") :=
  ⟨by decide, by decide, by decide,
    C1_success_inserts_exactly_requested exSource1 [] 1 "Q1"
      (Trace.mk [exQ1] 1 1 (some (prepare_questions [exQ1])))
      (by decide) (by decide) (by decide)⟩

/-- C2: against a source that only yields identities already in the store,
a positive request ends in `abort(500)` with the store unchanged after
exactly `RETRY_BUDGET = 100` loop iterations and insert calls. -/
theorem C2_exhaustion_after_retry_budget (source : Source) (store : Store)
    (n : Int) (h0 : 0 < n) (hseen : OnlySeen source store) :
    (request_questions source (.int n) store).1 = .abort500 ∧
    (request_questions source (.int n) store).2.store = store ∧
    (request_questions source (.int n) store).2.inserts = RETRY_BUDGET := by
  obtain ⟨b, hok, hb⟩ := hseen 0 n
  simp only [request_questions]
  rw [if_neg (by omega), if_neg (by omega), hok]
  have hdup : ∀ row ∈ rowsOf (prepare_questions b).id
      (prepare_questions b).question (prepare_questions b).answer
      (prepare_questions b).created_at,
      row.id ∈ store.map Question.id := by
    rw [rowsOf_prepare]
    exact hb
  have h := request_loop_exhaust source RETRY_BUDGET (prepare_questions b) n
    (Trace.mk store 1 0 none) hseen hdup (by omega)
  refine ⟨h.1, h.2.1, ?_⟩
  rw [h.2.2.1]
  show 0 + RETRY_BUDGET = RETRY_BUDGET
  omega

/-- Witness for C2: store `[exQ1]`, request 1, a source always returning
`[exQ1]` again. -/
theorem C2_exhaustion_after_retry_budget_witness :
    (0 : Int) < 1 ∧
    OnlySeen exSource1 [exQ1] ∧
    ((request_questions exSource1 (.int 1) [exQ1]).1 = .abort500 ∧
     (request_questions exSource1 (.int 1) [exQ1]).2.store = [exQ1] ∧
     (request_questions exSource1 (.int 1) [exQ1]).2.inserts = RETRY_BUDGET) :=
  ⟨by decide, fun _ _ => ⟨[exQ1], rfl, by decide⟩,
    C2_exhaustion_after_retry_budget exSource1 [exQ1] 1 (by decide)
      (fun _ _ => ⟨[exQ1], rfl, by decide⟩)⟩

/-- C5: a first batch of exactly `n` fresh, pairwise-distinct identities is
fulfilled in one round: one fetch, one insert, inserted count equal to the
batch length, and the result is the last question of that batch. -/
theorem C5_fresh_batch_single_round (source : Source) (store : Store)
    (n : Int) (b : List Question) (h0 : 0 < n)
    (hok : source 0 n = .ok b) (hlen : (b.length : Int) = n)
    (hnd : (b.map Question.id).Nodup)
    (hfresh : ∀ q ∈ b, q.id ∉ store.map Question.id) :
    (insert_uniq_questions store (prepare_questions b)).1 = b.length ∧
    ∃ t, (b.map Question.question).getLast? = some t ∧
      request_questions source (.int n) store =
        (.questionText t,
          { store := store ++ b, fetches := 1, inserts := 1,
            lastInserted := some (prepare_questions b) }) := by
  have hins : insert_uniq_questions store (prepare_questions b) =
      (b.length, store ++ b) := by
    unfold insert_uniq_questions
    rw [rowsOf_prepare]
    exact insertRows_all_fresh b store hnd hfresh
  refine ⟨by rw [hins], ?_⟩
  have hne : b ≠ [] := by
    intro hb
    rw [hb] at hlen
    simp at hlen
    omega
  cases hl : (b.map Question.question).getLast? with
  | none =>
      rw [List.getLast?_eq_none_iff] at hl
      exact absurd (List.map_eq_nil_iff.mp hl) hne
  | some t =>
      refine ⟨t, rfl, ?_⟩
      simp only [request_questions]
      rw [if_neg (by omega), if_neg (by omega), hok]
      show request_loop source (prepare_questions b) n RETRY_BUDGET
          (Trace.mk store 1 0 none) = _
      have hbudget : RETRY_BUDGET = 99 + 1 := rfl
      rw [hbudget, request_loop_succ]
      simp only [hins]
      have hf : fail_uniq_num n b.length = 0 := by
        unfold fail_uniq_num
        omega
      rw [if_neg (by simp [hf])]
      rw [prepare_questions_question, hl]

/-- Witness for C5: empty store, request 1, source returning `[exQ1]`. -/
theorem C5_fresh_batch_single_round_witness :
    (0 : Int) < 1 ∧
    exSource1 0 1 = .ok [exQ1] ∧
    (([exQ1].length : Int) = 1 ∧
     ([exQ1].map Question.id).Nodup ∧
     ∀ q ∈ [exQ1], q.id ∉ ([] : Store).map Question.id) ∧
    ((insert_uniq_questions [] (prepare_questions [exQ1])).1 =
        [exQ1].length ∧
     ∃ t, ([exQ1].map Question.question).getLast? = some t ∧
       request_questions exSource1 (.int 1) [] =
         (.questionText t,
           { store := [] ++ [exQ1], fetches := 1, inserts := 1,
             lastInserted := some (prepare_questions [exQ1]) })) :=
  ⟨by decide, rfl, ⟨by decide, by decide, by decide⟩,
    C5_fresh_batch_single_round exSource1 [] 1 [exQ1] (by decide) rfl
      (by decide) (by decide) (by decide)⟩

/-- C8: if, in any iteration with retries remaining, the insert leaves a
non-zero shortfall and the shortfall fetch fails, the whole loop immediately
ends with the source failure — no catch, no retry of fetch failures. -/
theorem C8_fetch_failure_propagates (source : Source) (q : PreparedQuestions)
    (n : Int) (r : Nat) (tr : Trace) (hr : 0 < r)
    (hfail : fail_uniq_num n (insert_uniq_questions tr.store q).1 ≠ 0)
    (herr : source tr.fetches
        (fail_uniq_num n (insert_uniq_questions tr.store q).1) =
      .error ()) :
    request_loop source q n r tr =
      (.sourceError,
        { store := (insert_uniq_questions tr.store q).2,
          fetches := tr.fetches + 1, inserts := tr.inserts + 1,
          lastInserted := some q }) := by
  obtain ⟨r', rfl⟩ : ∃ r', r = r' + 1 := ⟨r - 1, by omega⟩
  rw [request_loop]
  simp only [if_pos hfail, herr]

/-- Witness for C8: store empty, batch `[exQ1]`, requested 2, shortfall 1,
failing source. -/
theorem C8_fetch_failure_propagates_witness :
    0 < 5 ∧
    fail_uniq_num 2 (insert_uniq_questions ([] : Store)
        (prepare_questions [exQ1])).1 ≠ 0 ∧
    exErrSource (Trace.mk [] 0 0 none).fetches
        (fail_uniq_num 2 (insert_uniq_questions ([] : Store)
          (prepare_questions [exQ1])).1) = .error () ∧
    request_loop exErrSource (prepare_questions [exQ1]) 2 5
        (Trace.mk [] 0 0 none) =
      (.sourceError,
        { store := (insert_uniq_questions ([] : Store)
            (prepare_questions [exQ1])).2,
          fetches := 0 + 1, inserts := 0 + 1,
          lastInserted := some (prepare_questions [exQ1]) }) :=
  ⟨by decide, by decide, rfl,
    C8_fetch_failure_propagates exErrSource (prepare_questions [exQ1]) 2 5
      (Trace.mk [] 0 0 none) (by decide) (by decide) rfl⟩

end Qaws
